import Mathlib

/-!
Shallow embedding of `tools/global_domains.py`: a one-shot script that
extracts an enum mapping and an ordered family of domain lists from two
texts via line-anchored regular expressions, merges them by name, and
serializes the result as a JSON array of records.

The two regular expressions (`ENUM_RE`, `DOMAIN_LIST_RE`) are matched with
`re.match`, i.e. anchored at the start of each line only.  Both patterns
alternate character classes that are pairwise disjoint (whitespace, word
characters, literal punctuation, digits, non-brace characters), so the
backtracking regex engine behaves exactly like deterministic maximal-munch
scanning; the parsers below implement that scanning directly.  `\s` is
modelled by its ASCII members.
-/

namespace GlobalDomainsTool

/-- Characters matched by the regex class `\s` (ASCII members). -/
def isSpaceChar (c : Char) : Bool :=
  c == ' ' || c == '\t' || c == '\n' || c == '\r' || c == '\x0b' || c == '\x0c'

/-- Characters matched by the regex class `[_0-9a-zA-Z]`. -/
def isWordChar (c : Char) : Bool :=
  c == '_' || c.isDigit || c.isLower || c.isUpper

/-- Decimal value of a digit string, as computed by Python `int`. -/
def natOfDigits (ds : List Char) : Nat :=
  ds.foldl (fun a c => a * 10 + (c.toNat - 48)) 0

/-- Match a literal character sequence at the front of the input,
returning the remainder on success. -/
def dropLit : List Char → List Char → Option (List Char)
  | [], rest => some rest
  | _ :: _, [] => none
  | c :: cs, d :: ds => if d = c then dropLit cs ds else none

/-- Embedding of `ENUM_RE.match` on one line:
`\s*([_0-9a-zA-Z]+)\s*=\s*([0-9]+)`, anchored at the start of the line
only.  Returns the two capture groups (identifier, digit characters). -/
def enumMatch (ln : List Char) : Option (String × List Char) :=
  let r1 := ln.dropWhile isSpaceChar
  let name := r1.takeWhile isWordChar
  let r2 := r1.dropWhile isWordChar
  if name.isEmpty then none
  else
    match r2.dropWhile isSpaceChar with
    | '=' :: r3 =>
      let ds := (r3.dropWhile isSpaceChar).takeWhile Char.isDigit
      if ds.isEmpty then none else some (String.mk name, ds)
    | _ => none

/-- Literal head of `DOMAIN_LIST_RE`. -/
def addCallHead : List Char :=
  "GlobalDomains.Add(GlobalEquivalentDomainsType.".toList

/-- Literal `new List<string>` of `DOMAIN_LIST_RE`. -/
def listTypeLit : List Char := "new List<string>".toList

/-- Embedding of `DOMAIN_LIST_RE.match` on one line:
`\s*GlobalDomains\.Add\(GlobalEquivalentDomainsType\.([_0-9a-zA-Z]+)\s*,\s*new List<string>\s*{([^}]+)}\);`
anchored at the start of the line only.  Returns the two capture groups
(identifier, raw brace-delimited span). -/
def domainListMatch (ln : List Char) : Option (String × List Char) :=
  match dropLit addCallHead (ln.dropWhile isSpaceChar) with
  | none => none
  | some r1 =>
    let name := r1.takeWhile isWordChar
    let r2 := r1.dropWhile isWordChar
    if name.isEmpty then none
    else
      match r2.dropWhile isSpaceChar with
      | ',' :: r3 =>
        match dropLit listTypeLit (r3.dropWhile isSpaceChar) with
        | none => none
        | some r4 =>
          match r4.dropWhile isSpaceChar with
          | '\x7b' :: r5 =>
            let body := r5.takeWhile (fun c => c ≠ '\x7d')
            let r6 := r5.dropWhile (fun c => c ≠ '\x7d')
            if body.isEmpty then none
            else
              match dropLit "\x7d);".toList r6 with
              | none => none
              | some _ => some (String.mk name, body)
          | _ => none
      | _ => none

/-- Split a character list at every occurrence of `sep`, keeping empty
fragments, as Python `str.split` with an explicit separator. -/
def splitOnChar (sep : Char) : List Char → List (List Char)
  | [] => [[]]
  | c :: rest =>
    if c = sep then [] :: splitOnChar sep rest
    else
      match splitOnChar sep rest with
      | [] => [[c]]
      | f :: fs => (c :: f) :: fs

/-- Characters removed from both ends of a fragment by `d.strip(' "')`. -/
def isSpaceOrQuote (c : Char) : Bool := c == ' ' || c == '"'

/-- Embedding of `d.strip(' "')`. -/
def stripSpaceQuote (l : List Char) : List Char :=
  ((l.dropWhile isSpaceOrQuote).reverse.dropWhile isSpaceOrQuote).reverse

/-- Embedding of `[d.strip(' "') for d in group2.split(",")]`. -/
def parseDomains (body : List Char) : List String :=
  (splitOnChar ',' body).map (fun f => String.mk (stripSpaceQuote f))

/-- Store a key/value pair in an association list with the update
semantics of a Python `dict` / `OrderedDict` assignment: an existing key
keeps its original position and gets the new value; a new key is appended
at the end. -/
def updAssoc {α : Type} (k : String) (v : α) : List (String × α) → List (String × α)
  | [] => [(k, v)]
  | p :: rest => if p.1 = k then (p.1, v) :: rest else p :: updAssoc k v rest

/-- Fold a sequence of assignments into an association list. -/
def insertAll {α : Type} (acc : List (String × α)) : List (String × α) → List (String × α)
  | [] => acc
  | p :: rest => insertAll (updAssoc p.1 p.2 acc) rest

/-- Mapping lookup, as Python `d[k]` (`none` models an uncaught `KeyError`). -/
def lookupAssoc {α : Type} (l : List (String × α)) (k : String) : Option α :=
  match l with
  | [] => none
  | p :: rest => if p.1 = k then some p.2 else lookupAssoc rest k

/-- Value of the last pair carrying key `k`, if any. -/
def lastValue {α : Type} (k : String) : List (String × α) → Option α
  | [] => none
  | p :: rest =>
    match lastValue k rest with
    | some v => some v
    | none => if p.1 = k then some p.2 else none

/-- First-occurrence deduplication relative to an already-seen set. -/
def dedupFrom (seen : List String) : List String → List String
  | [] => []
  | n :: rest => if n ∈ seen then dedupFrom seen rest else n :: dedupFrom (n :: seen) rest

/-- Keys in order of first occurrence. -/
def dedupFirst (l : List String) : List String := dedupFrom [] l

/-- One `(identifier, value)` pair per line of the enum text that
`ENUM_RE` matches, in line order (duplicates not yet collapsed). -/
def enumPairs (text : String) : List (String × Nat) :=
  (splitOnChar '\n' text.toList).filterMap
    (fun ln => (enumMatch ln).map (fun p => (p.1, natOfDigits p.2)))

/-- Embedding of the `enums` dict after the first extraction loop. -/
def enumsOf (text : String) : List (String × Nat) :=
  insertAll [] (enumPairs text)

/-- One `(identifier, domain list)` pair per line of the list text that
`DOMAIN_LIST_RE` matches, in line order (duplicates not yet collapsed). -/
def domainPairs (text : String) : List (String × List String) :=
  (splitOnChar '\n' text.toList).filterMap
    (fun ln => (domainListMatch ln).map (fun p => (p.1, parseDomains p.2)))

/-- Embedding of the `domain_lists` `OrderedDict` after the second
extraction loop. -/
def domainListsOf (text : String) : List (String × List String) :=
  insertAll [] (domainPairs text)

/-- Identifiers of the matching lines of the list text, in line order. -/
def matchedNames (text : String) : List String :=
  (domainPairs text).map Prod.fst

/-- JSON values appearing in the output document. -/
inductive Json : Type where
  | num (n : Nat)
  | str (s : String)
  | bool (b : Bool)
  | arr (items : List Json)

/-- An output record: an ordered mapping from key to JSON value,
mirroring the per-entry `OrderedDict`. -/
abbrev OutputEntry : Type := List (String × Json)

/-- Embedding of the per-group entry construction: three assignments
`entry["type"]`, `entry["domains"]`, `entry["excluded"]` into a fresh
ordered mapping. -/
def mkEntry (code : Nat) (domains : List String) : OutputEntry :=
  updAssoc "excluded" (Json.bool false)
    (updAssoc "domains" (Json.arr (domains.map Json.str))
      (updAssoc "type" (Json.num code) []))

/-- Embedding of the merge loop: one entry per domain group in mapping
order; the first identifier absent from the enum mapping aborts the loop
with a `KeyError` carrying that identifier. -/
def buildGlobalDomains (enums : List (String × Nat)) :
    List (String × List String) → Except String (List OutputEntry)
  | [] => Except.ok []
  | p :: rest =>
    match lookupAssoc enums p.1 with
    | none => Except.error p.1
    | some code =>
      match buildGlobalDomains enums rest with
      | Except.error e => Except.error e
      | Except.ok l => Except.ok (mkEntry code p.2 :: l)

/-- Observable outcome of one run of the script. -/
inductive ProgResult : Type where
  | usage (lines : List String)
  | keyError (name : String)
  | ok (records : List OutputEntry)

/-- Lines printed to standard output on the usage error path. -/
def usageLines (prog : String) : List String :=
  ["usage: " ++ prog ++ " <OUTPUT-FILE> [GIT-REF]",
   "",
   "This script generates a global equivalent domains JSON file from",
   "the upstream Bitwarden source repo."]

/-- Embedding of the whole script on already-fetched texts: the argv
count check runs first (usage message to stdout, exit 1); then the two
extractions and the merge; the output file is written only on the `ok`
path, after the merge loop has finished. -/
def runProgram (argv : List String) (enumText listText : String) : ProgResult :=
  if 2 ≤ argv.length ∧ argv.length ≤ 3 then
    match buildGlobalDomains (enumsOf enumText) (domainListsOf listText) with
    | Except.error n => ProgResult.keyError n
    | Except.ok rs => ProgResult.ok rs
  else ProgResult.usage (usageLines (argv.headD ""))

/-- Process exit status of each outcome (an uncaught exception exits a
Python interpreter with status 1). -/
def exitCode : ProgResult → Nat
  | ProgResult.usage _ => 1
  | ProgResult.keyError _ => 1
  | ProgResult.ok _ => 0

/-- Whether the output file is created or modified by the outcome. -/
def outputWritten : ProgResult → Bool
  | ProgResult.ok _ => true
  | _ => false

/-! ### Association-list lemmas -/

theorem lookup_updAssoc {α : Type} (k k2 : String) (v : α) (l : List (String × α)) :
    lookupAssoc (updAssoc k v l) k2 = if k2 = k then some v else lookupAssoc l k2 := by
  induction l with
  | nil =>
    by_cases h : k2 = k
    · subst h; simp [updAssoc, lookupAssoc]
    · have h2 : ¬(k = k2) := fun hh => h hh.symm
      simp [updAssoc, lookupAssoc, h, h2]
  | cons p rest ih =>
    by_cases hp : p.1 = k
    · by_cases h2 : k2 = k
      · subst h2; simp [updAssoc, lookupAssoc, hp]
      · have h3 : ¬(p.1 = k2) := by rw [hp]; exact fun hh => h2 hh.symm
        have h4 : ¬(k = k2) := fun hh => h2 hh.symm
        simp [updAssoc, lookupAssoc, hp, h2, h3, h4]
    · by_cases h2 : k2 = k
      · subst h2
        simp [updAssoc, lookupAssoc, hp, ih]
      · simp [updAssoc, lookupAssoc, hp, h2, ih]

theorem keys_updAssoc {α : Type} (k : String) (v : α) (l : List (String × α)) :
    (updAssoc k v l).map Prod.fst =
      if k ∈ l.map Prod.fst then l.map Prod.fst else l.map Prod.fst ++ [k] := by
  induction l with
  | nil => simp [updAssoc]
  | cons p rest ih =>
    obtain ⟨a, b⟩ := p
    by_cases hp : a = k
    · subst hp; simp [updAssoc]
    · have hka : ¬(k = a) := fun hh => hp hh.symm
      by_cases hm : k ∈ rest.map Prod.fst <;>
        simp [updAssoc, hp, ih, hm, hka]

theorem dedupFrom_congr (s1 s2 : List String) (l : List String)
    (h : ∀ x, x ∈ s1 ↔ x ∈ s2) : dedupFrom s1 l = dedupFrom s2 l := by
  induction l generalizing s1 s2 with
  | nil => rfl
  | cons n rest ih =>
    by_cases hn : n ∈ s1
    · simp [dedupFrom, hn, (h n).mp hn, ih s1 s2 h]
    · have hn2 : n ∉ s2 := fun hh => hn ((h n).mpr hh)
      simp only [dedupFrom, if_neg hn, if_neg hn2]
      rw [ih (n :: s1) (n :: s2) (fun x => by simp [h x])]

theorem keys_insertAll {α : Type} (ps : List (String × α)) (acc : List (String × α)) :
    (insertAll acc ps).map Prod.fst
      = acc.map Prod.fst ++ dedupFrom (acc.map Prod.fst) (ps.map Prod.fst) := by
  induction ps generalizing acc with
  | nil => simp [insertAll, dedupFrom]
  | cons p rest ih =>
    by_cases hm : p.1 ∈ acc.map Prod.fst
    · have hk : (updAssoc p.1 p.2 acc).map Prod.fst = acc.map Prod.fst := by
        rw [keys_updAssoc]; simp [hm]
      simp [insertAll, ih, hk, dedupFrom, hm]
    · have hk : (updAssoc p.1 p.2 acc).map Prod.fst = acc.map Prod.fst ++ [p.1] := by
        rw [keys_updAssoc]; simp [hm]
      have hcg : dedupFrom (acc.map Prod.fst ++ [p.1]) (rest.map Prod.fst)
          = dedupFrom (p.1 :: acc.map Prod.fst) (rest.map Prod.fst) := by
        apply dedupFrom_congr; intro x; simp [or_comm]
      simp [insertAll, ih, hk, dedupFrom, hm, hcg]

theorem lookup_insertAll {α : Type} (ps : List (String × α)) (acc : List (String × α))
    (k : String) :
    lookupAssoc (insertAll acc ps)
        k = match lastValue k ps with
            | some v => some v
            | none => lookupAssoc acc k := by
  induction ps generalizing acc with
  | nil => rfl
  | cons p rest ih =>
    rw [show insertAll acc (p :: rest) = insertAll (updAssoc p.1 p.2 acc) rest from rfl, ih]
    cases hlast : lastValue k rest with
    | some v => simp [lastValue, hlast]
    | none =>
      rw [lookup_updAssoc]
      by_cases h : k = p.1
      · subst h; simp [lastValue, hlast]
      · have h2 : ¬(p.1 = k) := fun hh => h hh.symm
        simp [lastValue, hlast, h, h2]

/-! ### Merge-loop lemmas -/

theorem build_ok_of_found (enums : List (String × Nat)) (dls : List (String × List String))
    (h : ∀ p ∈ dls, (lookupAssoc enums p.1).isSome) :
    buildGlobalDomains enums dls
      = Except.ok (dls.map (fun p => mkEntry ((lookupAssoc enums p.1).getD 0) p.2)) := by
  induction dls with
  | nil => rfl
  | cons p rest ih =>
    have hp := h p (List.mem_cons_self p rest)
    cases hl : lookupAssoc enums p.1 with
    | none => rw [hl] at hp; simp at hp
    | some code =>
      have hrest := ih (fun q hq => h q (List.mem_cons_of_mem p hq))
      simp [buildGlobalDomains, hl, hrest]

theorem build_error_of_missing (enums : List (String × Nat))
    (dls : List (String × List String))
    (h : ∃ p ∈ dls, lookupAssoc enums p.1 = none) :
    ∃ n, buildGlobalDomains enums dls = Except.error n := by
  induction dls with
  | nil => obtain ⟨p, hp, _⟩ := h; cases hp
  | cons p rest ih =>
    cases hl : lookupAssoc enums p.1 with
    | none => exact ⟨p.1, by simp [buildGlobalDomains, hl]⟩
    | some code =>
      obtain ⟨q, hq, hqn⟩ := h
      rcases List.mem_cons.mp hq with h1 | h1
      · rw [h1, hl] at hqn; cases hqn
      · obtain ⟨n, hn⟩ := ih ⟨q, h1, hqn⟩
        exact ⟨n, by simp [buildGlobalDomains, hl, hn]⟩

theorem found_of_build_ok (enums : List (String × Nat))
    (dls : List (String × List String)) (out : List OutputEntry)
    (h : buildGlobalDomains enums dls = Except.ok out) :
    ∀ p ∈ dls, (lookupAssoc enums p.1).isSome := by
  induction dls generalizing out with
  | nil => intro q hq; cases hq
  | cons p rest ih =>
    intro q hq
    cases hl : lookupAssoc enums p.1 with
    | none => simp [buildGlobalDomains, hl] at h
    | some code =>
      cases hr : buildGlobalDomains enums rest with
      | error e => simp [buildGlobalDomains, hl, hr] at h
      | ok l =>
        rcases List.mem_cons.mp hq with h1 | h1
        · rw [h1, hl]; rfl
        · exact ih l hr q h1

/-! ### Maximal-munch scanning lemmas -/

theorem takeWhile_append_all (p : Char → Bool) (xs ys : List Char)
    (h : ∀ c ∈ xs, p c = true) :
    List.takeWhile p (xs ++ ys) = xs ++ List.takeWhile p ys := by
  induction xs with
  | nil => rfl
  | cons c cs ih =>
    rw [List.cons_append, List.takeWhile_cons_of_pos (h c (List.mem_cons_self c cs)),
      ih (fun d hd => h d (List.mem_cons_of_mem c hd)), List.cons_append]

theorem dropWhile_append_all (p : Char → Bool) (xs ys : List Char)
    (h : ∀ c ∈ xs, p c = true) :
    List.dropWhile p (xs ++ ys) = List.dropWhile p ys := by
  induction xs with
  | nil => rfl
  | cons c cs ih =>
    rw [List.cons_append, List.dropWhile_cons_of_pos (h c (List.mem_cons_self c cs)),
      ih (fun d hd => h d (List.mem_cons_of_mem c hd))]

theorem takeWhile_eq_nil_of_head (p : Char → Bool) (l : List Char)
    (h : ∀ c, l.head? = some c → p c = false) : List.takeWhile p l = [] := by
  cases l with
  | nil => rfl
  | cons c cs => rw [List.takeWhile_cons_of_neg (by simp [h c rfl])]

theorem dropWhile_eq_self_of_head (p : Char → Bool) (l : List Char)
    (h : ∀ c, l.head? = some c → p c = false) : List.dropWhile p l = l := by
  cases l with
  | nil => rfl
  | cons c cs => rw [List.dropWhile_cons_of_neg (by simp [h c rfl])]

theorem takeWhile_append_stop (p : Char → Bool) (xs ys : List Char)
    (hall : ∀ c ∈ xs, p c = true) (hstop : ∀ c, ys.head? = some c → p c = false) :
    List.takeWhile p (xs ++ ys) = xs := by
  rw [takeWhile_append_all p xs ys hall, takeWhile_eq_nil_of_head p ys hstop,
    List.append_nil]

theorem dropWhile_append_stop (p : Char → Bool) (xs ys : List Char)
    (hall : ∀ c ∈ xs, p c = true) (hstop : ∀ c, ys.head? = some c → p c = false) :
    List.dropWhile p (xs ++ ys) = ys := by
  rw [dropWhile_append_all p xs ys hall, dropWhile_eq_self_of_head p ys hstop]

theorem dropLit_append (xs zs : List Char) : dropLit xs (xs ++ zs) = some zs := by
  induction xs with
  | nil => rfl
  | cons c cs ih => simp [dropLit, ih]

/-! ### Character-class lemmas: the regex classes are pairwise disjoint -/

theorem word_not_space (c : Char) (h : isWordChar c = true) : isSpaceChar c = false := by
  cases hs : isSpaceChar c
  · rfl
  · exfalso
    simp only [isSpaceChar, Bool.or_eq_true, beq_iff_eq] at hs
    rcases hs with ((((h1 | h1) | h1) | h1) | h1) | h1 <;> subst h1 <;>
      exact absurd h (by decide)

theorem space_not_word (c : Char) (h : isSpaceChar c = true) : isWordChar c = false := by
  cases hw : isWordChar c
  · rfl
  · rw [word_not_space c hw] at h; cases h

theorem digit_word (c : Char) (h : c.isDigit = true) : isWordChar c = true := by
  simp [isWordChar, h]

/-! ### Claim theorems -/

/-- C1: on the spec's scenario (enum text `Foo = 0,` / `Bar = 1,`; list
text with a `Foo` line for `x.com, y.com` followed by a `Bar` line for
`z.com`), the combined extraction and merge produces exactly the two
records `{type: 0, domains: [x.com, y.com], excluded: false}` and
`{type: 1, domains: [z.com], excluded: false}`, in that order. -/
theorem end_to_end_pipeline :
    buildGlobalDomains (enumsOf "Foo = 0,\nBar = 1,")
        (domainListsOf ("GlobalDomains.Add(GlobalEquivalentDomainsType.Foo, new List<string> \x7b \"x.com\", \"y.com\" \x7d);\nGlobalDomains.Add(GlobalEquivalentDomainsType.Bar, new List<string> \x7b \"z.com\" \x7d);"))
      = Except.ok
          [[("type", Json.num 0),
            ("domains", Json.arr [Json.str "x.com", Json.str "y.com"]),
            ("excluded", Json.bool false)],
           [("type", Json.num 1),
            ("domains", Json.arr [Json.str "z.com"]),
            ("excluded", Json.bool false)]] := by
  rfl

/-- C2: when every domain-group name is a key of the enum mapping, the
merger appends exactly one record per pair, whose `type` is the enum
mapping's integer for the name, whose `domains` is the pair's list
unchanged, and whose `excluded` is `false`, with the keys in the order
`type`, `domains`, `excluded`. -/
theorem merge_postcondition (enums : List (String × Nat))
    (dls : List (String × List String))
    (h : ∀ p ∈ dls, (lookupAssoc enums p.1).isSome) :
    buildGlobalDomains enums dls
      = Except.ok (dls.map (fun p =>
          [("type", Json.num ((lookupAssoc enums p.1).getD 0)),
           ("domains", Json.arr (p.2.map Json.str)),
           ("excluded", Json.bool false)])) :=
  build_ok_of_found enums dls h

/-- Witness for C2 at a concrete mapping. -/
theorem merge_postcondition_witness :
    buildGlobalDomains [("Foo", 7)] [("Foo", ["x.com"])]
      = Except.ok [[("type", Json.num 7),
                    ("domains", Json.arr [Json.str "x.com"]),
                    ("excluded", Json.bool false)]] :=
  merge_postcondition [("Foo", 7)] [("Foo", ["x.com"])] (by decide)

/-- C3: if some domain-group name extracted from the list text is absent
from the enum mapping, the run ends in an uncaught key-not-found failure
and the output file is never opened or written. -/
theorem missing_key_no_output (argv : List String) (enumText listText : String)
    (hargv : 2 ≤ argv.length ∧ argv.length ≤ 3)
    (h : ∃ p ∈ domainListsOf listText, lookupAssoc (enumsOf enumText) p.1 = none) :
    (∃ n, runProgram argv enumText listText = ProgResult.keyError n)
      ∧ outputWritten (runProgram argv enumText listText) = false := by
  obtain ⟨n, hn⟩ := build_error_of_missing (enumsOf enumText) (domainListsOf listText) h
  have hrun : runProgram argv enumText listText = ProgResult.keyError n := by
    rw [runProgram, if_pos hargv, hn]
  exact ⟨⟨n, hrun⟩, by rw [hrun]; rfl⟩

/-- Witness for C3: an empty enum text and a one-group list text. -/
theorem missing_key_no_output_witness :
    (∃ n, runProgram ["prog", "out.json"] ""
        "GlobalDomains.Add(GlobalEquivalentDomainsType.Foo, new List<string> \x7b \"x.com\" \x7d);"
        = ProgResult.keyError n)
      ∧ outputWritten (runProgram ["prog", "out.json"] ""
          "GlobalDomains.Add(GlobalEquivalentDomainsType.Foo, new List<string> \x7b \"x.com\" \x7d);")
        = false :=
  missing_key_no_output ["prog", "out.json"] ""
    "GlobalDomains.Add(GlobalEquivalentDomainsType.Foo, new List<string> \x7b \"x.com\" \x7d);"
    (by decide) (by decide)

/-- C7: for both extractors, a repeated identifier keeps the value of its
last matching line (last write wins), and in the ordered domain-group
mapping it keeps the position of its first insertion. -/
theorem duplicate_semantics (enumText listText : String) (k : String) :
    lookupAssoc (enumsOf enumText) k = lastValue k (enumPairs enumText)
      ∧ lookupAssoc (domainListsOf listText) k = lastValue k (domainPairs listText)
      ∧ (domainListsOf listText).map Prod.fst
          = dedupFirst ((domainPairs listText).map Prod.fst) := by
  refine ⟨?_, ?_, ?_⟩
  · rw [enumsOf, lookup_insertAll]
    cases lastValue k (enumPairs enumText) <;> rfl
  · rw [domainListsOf, lookup_insertAll]
    cases lastValue k (domainPairs listText) <;> rfl
  · rw [domainListsOf, dedupFirst, keys_insertAll]; rfl

/-- C10: the enum pattern is anchored at the start of a line but not at
its end: `Foo = 3, Bar = 4` yields exactly the single entry `Foo -> 3`,
and `Timeout = 30abc` yields `Timeout -> 30`. -/
theorem enum_match_start_anchored_only :
    enumsOf "Foo = 3, Bar = 4" = [("Foo", 3)]
      ∧ enumsOf "Timeout = 30abc" = [("Timeout", 30)] :=
  ⟨by decide, by decide⟩

/-- C4: the output record sequence follows the first-occurrence order of
the domain-group identifiers in the list text, whatever numeric codes the
enum mapping assigns: the keys of the ordered mapping are the matched
identifiers deduplicated to their first occurrence, and the output is the
image of that mapping in its own order. -/
theorem output_order_first_occurrence (enums : List (String × Nat)) (listText : String)
    (out : List OutputEntry)
    (h : buildGlobalDomains enums (domainListsOf listText) = Except.ok out) :
    (domainListsOf listText).map Prod.fst = dedupFirst (matchedNames listText)
      ∧ out = (domainListsOf listText).map
          (fun p => mkEntry ((lookupAssoc enums p.1).getD 0) p.2) := by
  constructor
  · rw [domainListsOf, dedupFirst, matchedNames, keys_insertAll]
    rfl
  · have hfound := found_of_build_ok enums (domainListsOf listText) out h
    have h2 := build_ok_of_found enums (domainListsOf listText) hfound
    rw [h] at h2
    injection h2

/-- Witness for C4: identifiers in text order `B, A, C` with codes 5, 1, 9. -/
theorem output_order_first_occurrence_witness :
    (domainListsOf "GlobalDomains.Add(GlobalEquivalentDomainsType.B, new List<string> \x7b \"b.com\" \x7d);\nGlobalDomains.Add(GlobalEquivalentDomainsType.A, new List<string> \x7b \"a.com\" \x7d);\nGlobalDomains.Add(GlobalEquivalentDomainsType.C, new List<string> \x7b \"c.com\" \x7d);").map Prod.fst
        = dedupFirst (matchedNames "GlobalDomains.Add(GlobalEquivalentDomainsType.B, new List<string> \x7b \"b.com\" \x7d);\nGlobalDomains.Add(GlobalEquivalentDomainsType.A, new List<string> \x7b \"a.com\" \x7d);\nGlobalDomains.Add(GlobalEquivalentDomainsType.C, new List<string> \x7b \"c.com\" \x7d);")
      ∧ [[("type", Json.num 5), ("domains", Json.arr [Json.str "b.com"]), ("excluded", Json.bool false)],
         [("type", Json.num 1), ("domains", Json.arr [Json.str "a.com"]), ("excluded", Json.bool false)],
         [("type", Json.num 9), ("domains", Json.arr [Json.str "c.com"]), ("excluded", Json.bool false)]]
        = (domainListsOf "GlobalDomains.Add(GlobalEquivalentDomainsType.B, new List<string> \x7b \"b.com\" \x7d);\nGlobalDomains.Add(GlobalEquivalentDomainsType.A, new List<string> \x7b \"a.com\" \x7d);\nGlobalDomains.Add(GlobalEquivalentDomainsType.C, new List<string> \x7b \"c.com\" \x7d);").map
            (fun p => mkEntry ((lookupAssoc [("B", 5), ("A", 1), ("C", 9)] p.1).getD 0) p.2) :=
  output_order_first_occurrence [("B", 5), ("A", 1), ("C", 9)]
    "GlobalDomains.Add(GlobalEquivalentDomainsType.B, new List<string> \x7b \"b.com\" \x7d);\nGlobalDomains.Add(GlobalEquivalentDomainsType.A, new List<string> \x7b \"a.com\" \x7d);\nGlobalDomains.Add(GlobalEquivalentDomainsType.C, new List<string> \x7b \"c.com\" \x7d);"
    [[("type", Json.num 5), ("domains", Json.arr [Json.str "b.com"]), ("excluded", Json.bool false)],
     [("type", Json.num 1), ("domains", Json.arr [Json.str "a.com"]), ("excluded", Json.bool false)],
     [("type", Json.num 9), ("domains", Json.arr [Json.str "c.com"]), ("excluded", Json.bool false)]]
    (by rfl)

/-- C5: every line shaped as optional leading whitespace, a nonempty
word-character identifier, `=` with optional surrounding whitespace, and
a nonempty digit run (followed by anything not starting with a digit)
matches the enum pattern and yields the identifier and the digit run;
lines not starting this way, such as `  // Foo = 3` or `{`, yield no
entry. -/
theorem enum_line_extraction (ws1 name ws2 ws3 ds rest : List Char)
    (hws1 : ∀ c ∈ ws1, isSpaceChar c = true)
    (hname : name ≠ [])
    (hword : ∀ c ∈ name, isWordChar c = true)
    (hws2 : ∀ c ∈ ws2, isSpaceChar c = true)
    (hws3 : ∀ c ∈ ws3, isSpaceChar c = true)
    (hds : ds ≠ [])
    (hdig : ∀ c ∈ ds, c.isDigit = true)
    (hrest : ∀ c ∈ rest.take 1, c.isDigit = false) :
    enumMatch (ws1 ++ (name ++ (ws2 ++ ('=' :: (ws3 ++ (ds ++ rest))))))
        = some (String.mk name, ds)
      ∧ enumMatch "  // Foo = 3".toList = none
      ∧ enumMatch "\x7b".toList = none := by
  refine ⟨?_, by decide, by decide⟩
  cases name with
  | nil => exact absurd rfl hname
  | cons n0 ntl =>
  cases ds with
  | nil => exact absurd rfl hds
  | cons d0 dtl =>
  have hn0 : isWordChar n0 = true := hword n0 (List.mem_cons_self _ _)
  have hrest2 : ∀ c, rest.head? = some c → Char.isDigit c = false := by
    intro c hc
    cases rest with
    | nil => cases hc
    | cons r rtl =>
      rw [List.head?_cons] at hc
      cases hc
      exact hrest _ (by simp)
  have e1 : List.dropWhile isSpaceChar
      (ws1 ++ ((n0 :: ntl) ++ (ws2 ++ ('=' :: (ws3 ++ ((d0 :: dtl) ++ rest))))))
      = (n0 :: ntl) ++ (ws2 ++ ('=' :: (ws3 ++ ((d0 :: dtl) ++ rest)))) := by
    rw [dropWhile_append_all _ _ _ hws1]
    apply dropWhile_eq_self_of_head
    intro c hc
    rw [List.cons_append, List.head?_cons] at hc
    cases hc
    exact word_not_space n0 hn0
  have hstop2 : ∀ c, (ws2 ++ ('=' :: (ws3 ++ ((d0 :: dtl) ++ rest)))).head? = some c →
      isWordChar c = false := by
    cases ws2 with
    | nil =>
      intro c hc
      rw [List.nil_append, List.head?_cons] at hc
      cases hc
      decide
    | cons w wtl =>
      intro c hc
      rw [List.cons_append, List.head?_cons] at hc
      cases hc
      exact space_not_word w (hws2 w (List.mem_cons_self _ _))
  have e2 : List.takeWhile isWordChar
      ((n0 :: ntl) ++ (ws2 ++ ('=' :: (ws3 ++ ((d0 :: dtl) ++ rest)))))
      = n0 :: ntl := takeWhile_append_stop _ _ _ hword hstop2
  have e3 : List.dropWhile isWordChar
      ((n0 :: ntl) ++ (ws2 ++ ('=' :: (ws3 ++ ((d0 :: dtl) ++ rest)))))
      = ws2 ++ ('=' :: (ws3 ++ ((d0 :: dtl) ++ rest))) :=
    dropWhile_append_stop _ _ _ hword hstop2
  have e4 : List.dropWhile isSpaceChar (ws2 ++ ('=' :: (ws3 ++ ((d0 :: dtl) ++ rest))))
      = '=' :: (ws3 ++ ((d0 :: dtl) ++ rest)) := by
    apply dropWhile_append_stop _ _ _ hws2
    intro c hc
    rw [List.head?_cons] at hc
    cases hc
    decide
  have e5 : List.dropWhile isSpaceChar (ws3 ++ ((d0 :: dtl) ++ rest))
      = (d0 :: dtl) ++ rest := by
    apply dropWhile_append_stop _ _ _ hws3
    intro c hc
    rw [List.cons_append, List.head?_cons] at hc
    cases hc
    exact word_not_space d0 (digit_word d0 (hdig d0 (List.mem_cons_self _ _)))
  have e6 : List.takeWhile Char.isDigit ((d0 :: dtl) ++ rest) = d0 :: dtl :=
    takeWhile_append_stop _ _ _ hdig hrest2
  simp only [enumMatch, e1, e2, e3, e4, e5, e6, List.isEmpty_cons]
  rfl

/-- Witness for C5 at the well-formed line `  Foo = 31,` (split into its
parts) together with the two non-matching examples. -/
theorem enum_line_extraction_witness :
    (enumMatch ([' '] ++ (['F', 'o', 'o'] ++ ([' '] ++ ('=' :: ([' '] ++ (['3', '1'] ++ [',']))))))
        = some (String.mk ['F', 'o', 'o'], ['3', '1'])
      ∧ enumMatch "  // Foo = 3".toList = none
      ∧ enumMatch "\x7b".toList = none) :=
  enum_line_extraction [' '] ['F', 'o', 'o'] [' '] [' '] ['3', '1'] [',']
    (by decide) (by decide) (by decide) (by decide) (by decide) (by decide) (by decide)
    (by decide)

/-- C6: every line of the form
`GlobalDomains.Add(GlobalEquivalentDomainsType.<Name>, new List<string> {<body>});`
with a nonempty word-character name and a nonempty brace-free body
matches the domain-list pattern capturing the name and the raw body; the
extractor then splits the body on commas and strips spaces and double
quotes from each fragment, so the concrete line with
`{ "a.com", " b.com " }` yields `Foo -> [a.com, b.com]`, and a
non-matching line yields no entry. -/
theorem domain_list_line_extraction (name body : List Char)
    (hname : name ≠ [])
    (hword : ∀ c ∈ name, isWordChar c = true)
    (hbody : body ≠ [])
    (hbrace : ∀ c ∈ body, c ≠ '\x7d') :
    domainListMatch
        (addCallHead ++ (name ++ (", new List<string> \x7b".toList ++ (body ++ "\x7d);".toList))))
        = some (String.mk name, body)
      ∧ domainPairs "GlobalDomains.Add(GlobalEquivalentDomainsType.Foo, new List<string> \x7b \"a.com\", \" b.com \" \x7d);"
          = [("Foo", ["a.com", "b.com"])]
      ∧ domainListMatch "GlobalDomains.Add(SomethingElse.Foo, new List<string> \x7b \"a.com\" \x7d);".toList
          = none := by
  refine ⟨?_, by decide, by decide⟩
  cases name with
  | nil => exact absurd rfl hname
  | cons n0 ntl =>
  cases body with
  | nil => exact absurd rfl hbody
  | cons b0 btl =>
  have e1 : List.dropWhile isSpaceChar
      (addCallHead ++ ((n0 :: ntl) ++ (", new List<string> \x7b".toList ++ ((b0 :: btl) ++ "\x7d);".toList))))
      = addCallHead ++ ((n0 :: ntl) ++ (", new List<string> \x7b".toList ++ ((b0 :: btl) ++ "\x7d);".toList))) := by
    apply dropWhile_eq_self_of_head
    intro c hc
    have hc2 : some 'G' = some c := hc
    cases hc2
    decide
  have e2 : dropLit addCallHead
      (addCallHead ++ ((n0 :: ntl) ++ (", new List<string> \x7b".toList ++ ((b0 :: btl) ++ "\x7d);".toList))))
      = some ((n0 :: ntl) ++ (", new List<string> \x7b".toList ++ ((b0 :: btl) ++ "\x7d);".toList))) :=
    dropLit_append _ _
  have hstop2 : ∀ c, (", new List<string> \x7b".toList ++ ((b0 :: btl) ++ "\x7d);".toList)).head? = some c →
      isWordChar c = false := by
    intro c hc
    have hc2 : some ',' = some c := hc
    cases hc2
    decide
  have e3 : List.takeWhile isWordChar
      ((n0 :: ntl) ++ (", new List<string> \x7b".toList ++ ((b0 :: btl) ++ "\x7d);".toList)))
      = n0 :: ntl := takeWhile_append_stop _ _ _ hword hstop2
  have e4 : List.dropWhile isWordChar
      ((n0 :: ntl) ++ (", new List<string> \x7b".toList ++ ((b0 :: btl) ++ "\x7d);".toList)))
      = ", new List<string> \x7b".toList ++ ((b0 :: btl) ++ "\x7d);".toList) :=
    dropWhile_append_stop _ _ _ hword hstop2
  have e5 : List.dropWhile isSpaceChar
      (", new List<string> \x7b".toList ++ ((b0 :: btl) ++ "\x7d);".toList))
      = ',' :: (" new List<string> \x7b".toList ++ ((b0 :: btl) ++ "\x7d);".toList)) := by
    have h0 : (", new List<string> \x7b".toList ++ ((b0 :: btl) ++ "\x7d);".toList))
        = ',' :: (" new List<string> \x7b".toList ++ ((b0 :: btl) ++ "\x7d);".toList)) := rfl
    rw [h0, List.dropWhile_cons_of_neg (by decide)]
  have e6 : List.dropWhile isSpaceChar
      (" new List<string> \x7b".toList ++ ((b0 :: btl) ++ "\x7d);".toList))
      = "new List<string> \x7b".toList ++ ((b0 :: btl) ++ "\x7d);".toList) := by
    have h0 : (" new List<string> \x7b".toList ++ ((b0 :: btl) ++ "\x7d);".toList))
        = ' ' :: ("new List<string> \x7b".toList ++ ((b0 :: btl) ++ "\x7d);".toList)) := rfl
    rw [h0, List.dropWhile_cons_of_pos (by decide)]
    apply dropWhile_eq_self_of_head
    intro c hc
    have hc2 : some 'n' = some c := hc
    cases hc2
    decide
  have e7 : dropLit listTypeLit
      ("new List<string> \x7b".toList ++ ((b0 :: btl) ++ "\x7d);".toList))
      = some (' ' :: ('\x7b' :: ((b0 :: btl) ++ "\x7d);".toList))) := by
    have h0 : ("new List<string> \x7b".toList ++ ((b0 :: btl) ++ "\x7d);".toList))
        = listTypeLit ++ (' ' :: ('\x7b' :: ((b0 :: btl) ++ "\x7d);".toList))) := rfl
    rw [h0]
    exact dropLit_append _ _
  have e8 : List.dropWhile isSpaceChar (' ' :: ('\x7b' :: ((b0 :: btl) ++ "\x7d);".toList)))
      = '\x7b' :: ((b0 :: btl) ++ "\x7d);".toList) := by
    rw [List.dropWhile_cons_of_pos (by decide), List.dropWhile_cons_of_neg (by decide)]
  have hbr : ∀ c ∈ (b0 :: btl), (decide (c ≠ '\x7d')) = true := by
    intro c hc
    exact decide_eq_true (hbrace c hc)
  have hbrstop : ∀ c, ("\x7d);".toList : List Char).head? = some c → (decide (c ≠ '\x7d')) = false := by
    intro c hc
    have hc2 : some '\x7d' = some c := hc
    cases hc2
    decide
  have e9 : List.takeWhile (fun c => decide (c ≠ '\x7d')) ((b0 :: btl) ++ "\x7d);".toList)
      = b0 :: btl := takeWhile_append_stop _ _ _ hbr hbrstop
  have e10 : List.dropWhile (fun c => decide (c ≠ '\x7d')) ((b0 :: btl) ++ "\x7d);".toList)
      = "\x7d);".toList := dropWhile_append_stop _ _ _ hbr hbrstop
  have e11 : dropLit "\x7d);".toList "\x7d);".toList = some [] := by decide
  simp only [domainListMatch, e1, e2, e3, e4, e5, e6, e7, e8, e9, e10, e11, List.isEmpty_cons]
  rfl

/-- Witness for C6 at name `Foo` and body ` "a.com" `, together with the
two closed examples. -/
theorem domain_list_line_extraction_witness :
    (domainListMatch
        (addCallHead ++ (['F', 'o', 'o'] ++ (", new List<string> \x7b".toList ++ (" \"a.com\" ".toList ++ "\x7d);".toList))))
        = some (String.mk ['F', 'o', 'o'], " \"a.com\" ".toList)
      ∧ domainPairs "GlobalDomains.Add(GlobalEquivalentDomainsType.Foo, new List<string> \x7b \"a.com\", \" b.com \" \x7d);"
          = [("Foo", ["a.com", "b.com"])]
      ∧ domainListMatch "GlobalDomains.Add(SomethingElse.Foo, new List<string> \x7b \"a.com\" \x7d);".toList
          = none) :=
  domain_list_line_extraction ['F', 'o', 'o'] " \"a.com\" ".toList
    (by decide) (by decide) (by decide) (by decide)

/-- C8: with zero or with more than two arguments after the program name,
the run prints the usage message (program name, one-line synopsis and
description) to standard output and exits with status 1 without creating
or modifying the output file. -/
theorem usage_error_behavior (argv : List String) (enumText listText : String)
    (h : argv.length = 1 ∨ 3 < argv.length) :
    runProgram argv enumText listText = ProgResult.usage (usageLines (argv.headD ""))
      ∧ exitCode (runProgram argv enumText listText) = 1
      ∧ outputWritten (runProgram argv enumText listText) = false := by
  have hcond : ¬(2 ≤ argv.length ∧ argv.length ≤ 3) := by
    rcases h with h | h <;> omega
  have hrun : runProgram argv enumText listText
      = ProgResult.usage (usageLines (argv.headD "")) := by
    simp only [runProgram, if_neg hcond]
  exact ⟨hrun, by rw [hrun]; rfl, by rw [hrun]; rfl⟩

/-- Witness for C8: invocation with the program name alone. -/
theorem usage_error_behavior_witness :
    runProgram ["prog"] "" "" = ProgResult.usage (usageLines "prog")
      ∧ exitCode (runProgram ["prog"] "" "") = 1
      ∧ outputWritten (runProgram ["prog"] "" "") = false :=
  usage_error_behavior ["prog"] "" "" (by decide)

/-- C9: whenever the enum pattern matches a line, its second capture
group is a nonempty run of decimal digits, so the integer conversion
applied to it is total; the extraction loops themselves are total Lean
functions over arbitrary texts. -/
theorem enum_capture_digits_total (ln : List Char) (n : String) (ds : List Char)
    (h : enumMatch ln = some (n, ds)) :
    ds ≠ [] ∧ ∀ c ∈ ds, c.isDigit = true := by
  simp only [enumMatch] at h
  split at h
  · exact absurd h (by simp)
  · split at h
    · split at h
      · exact absurd h (by simp)
      · rename_i hne
        rw [Option.some.injEq, Prod.mk.injEq] at h
        obtain ⟨h1, h2⟩ := h
        subst h2
        refine ⟨fun hnil => hne (by rw [hnil]; rfl), ?_⟩
        intro c hc
        exact List.mem_takeWhile_imp hc
    · exact absurd h (by simp)

/-- Witness for C9 at the line `A = 5`. -/
theorem enum_capture_digits_total_witness :
    (['5'] ≠ ([] : List Char)) ∧ ∀ c ∈ (['5'] : List Char), c.isDigit = true :=
  enum_capture_digits_total "A = 5".toList "A" ['5'] (by decide)

end GlobalDomainsTool
